import Mathlib

/-!
Verification of the confinement core of the `luperiq-sentinel` agent.

This file gives a shallow embedding, in Lean, of the security-relevant parts of
the Rust sources: the capability checker (`src/security/capability.rs`), the
built-in tool executor (`src/agent/tools.rs`), the agent turn loop
(`src/app.rs`), the skill IPC layer (`src/skills/ipc.rs` and
`src/skills/sandbox.rs`), the skill manifest parser and loader
(`src/skills/manifest.rs`, `src/skills/loader.rs`, and the minimal TOML parser
of `src/config.rs`), and the small JSON value type with its serializer
(`src/net/json.rs`).

Conventions of the embedding:
* Pure Rust string manipulation is modelled by executable Lean functions over
  `String` (working on the underlying character list, so that all definitions
  reduce inside the kernel).  Rust strings are UTF-8 and are indexed here only
  at single-byte (ASCII) positions, so character-level modelling is faithful.
* Operating-system services that the code consumes (path canonicalization,
  file reads and writes, directory listings, process spawning) are modelled as
  oracle parameters (`PathOracle`, `World`): a value of the oracle type fixes
  one possible behaviour of the environment, and theorems quantify over all of
  them.
* Fallible Rust functions returning `Result`/`Option` become `Except`/`Option`.
* Side effects (audit log appends, filesystem operations, process spawns) are
  made explicit: the modelled functions return, next to the Rust return value,
  the list of audit events emitted and the list of external operations
  performed, in order.
-/

-- ═══════════════════════════════════════════════════════════════════════════
-- String helpers (executable models of the Rust std string operations used)
-- ═══════════════════════════════════════════════════════════════════════════

/-- Model of Rust `str::split(sep)` for a one-character separator, as the list
of the fragments between occurrences of `sep`.  Auxiliary recursion carrying
the characters of the current fragment in reverse. -/
def splitCharGo (sep : Char) : List Char → List Char → List String
  | [], acc => [String.mk acc.reverse]
  | c :: cs, acc =>
    if c = sep then String.mk acc.reverse :: splitCharGo sep cs []
    else splitCharGo sep cs (c :: acc)

/-- Rust `str::split(sep)` for a one-character separator. -/
def splitChar (sep : Char) (s : String) : List String :=
  splitCharGo sep s.data []

/-- Rust `str::trim` (the sources only ever trim ASCII whitespace). -/
def trimStr (s : String) : String :=
  String.mk (((s.data.dropWhile Char.isWhitespace).reverse.dropWhile Char.isWhitespace).reverse)

/-- Rust `str::starts_with(p)` / `Path` string-prefix test: `p` is a literal
prefix of `s`. -/
def strStartsWith (s p : String) : Bool :=
  List.isPrefixOf p.data s.data

/-- Rust `str::ends_with(p)`. -/
def strEndsWith (s p : String) : Bool :=
  List.isSuffixOf p.data s.data

/-- Byte slicing `s[n..]` at an ASCII position, as dropping `n` characters. -/
def strDrop (s : String) (n : Nat) : String :=
  String.mk (s.data.drop n)

/-- Byte slicing `s[..len-n]` at an ASCII position, as dropping `n` trailing
characters. -/
def strDropRight (s : String) (n : Nat) : String :=
  String.mk (s.data.take (s.data.length - n))

/-- Rust `str::contains(c)` for a one-character pattern. -/
def strContainsChar (s : String) (c : Char) : Bool :=
  s.data.contains c

/-- Rust `str::is_empty`. -/
def strIsEmpty (s : String) : Bool :=
  s.data.isEmpty

/-- Rust `Vec<String>::join(sep)` / iterator `collect::<String>` with a
separator between consecutive elements. -/
def joinSep (sep : String) : List String → String
  | [] => ""
  | [x] => x
  | x :: xs => x ++ sep ++ joinSep sep xs

/-- Lexicographic comparison of character lists; agrees with the Rust `Ord`
instance of `String` (UTF-8 byte order coincides with scalar-value order). -/
def charListLe : List Char → List Char → Bool
  | [], _ => true
  | _ :: _, [] => false
  | a :: as, b :: bs => if a < b then true else if b < a then false else charListLe as bs

/-- Rust `String` ordering `a <= b`. -/
def strLe (a b : String) : Bool :=
  charListLe a.data b.data

/-- Stable insertion into a sorted list, the building block of the sorting used
to model `Vec::sort` / `sort_by` (only the result matters to the sources, and
it is a sorted permutation either way). -/
def insertLe {α : Type} (le : α → α → Bool) (a : α) : List α → List α
  | [] => [a]
  | b :: l => if le a b then a :: b :: l else b :: insertLe le a l

/-- Model of Rust `Vec::sort` / `Vec::sort_by` with comparison `le`. -/
def sortLe {α : Type} (le : α → α → Bool) : List α → List α
  | [] => []
  | a :: l => insertLe le a (sortLe le l)

theorem mem_insertLe {α : Type} (le : α → α → Bool) (a x : α) (l : List α) :
    x ∈ insertLe le a l ↔ x = a ∨ x ∈ l := by
  induction l with
  | nil => simp [insertLe]
  | cons b t ih =>
    by_cases h : le a b = true
    · simp [insertLe, h]
    · simp only [insertLe, h, if_false]
      simp [ih]
      tauto

theorem mem_sortLe {α : Type} (le : α → α → Bool) (x : α) (l : List α) :
    x ∈ sortLe le l ↔ x ∈ l := by
  induction l with
  | nil => simp [sortLe]
  | cons a t ih => simp [sortLe, mem_insertLe, ih]

theorem append_ne_empty_of_right_pos (s t : String) (ht : 0 < t.length) :
    s ++ t ≠ "" := by
  intro h
  have hlen : (s ++ t).length = ("" : String).length := congrArg String.length h
  rw [String.length_append] at hlen
  have h0 : ("" : String).length = 0 := rfl
  omega

-- ═══════════════════════════════════════════════════════════════════════════
-- Capability checker (src/security/capability.rs)
-- ═══════════════════════════════════════════════════════════════════════════

/-- Oracle for the path services the checker consumes from the standard
library: `std::fs::canonicalize` (returning the canonical path string on
success), `Path::parent`, `Path::file_name`, and `Path::join`.  These are
environment- and platform-dependent, so the embedding quantifies over them. -/
structure PathOracle where
  canon : String → Option String
  parent : String → Option String
  fileName : String → Option String
  join : String → String → String

/-- `CapabilityResult` from src/security/capability.rs lines 5-9. -/
inductive CapabilityResult where
  | allowed : CapabilityResult
  | denied : String → CapabilityResult
deriving DecidableEq, Repr

/-- `CapabilityChecker` from src/security/capability.rs lines 11-15. -/
structure CapabilityChecker where
  allowed_read_paths : List String
  allowed_write_paths : List String
  allowed_commands : List String
deriving DecidableEq, Repr

/-- The canonical form computed by `check_path` (src/security/capability.rs
lines 67-96): canonicalize the path; if that fails, canonicalize the parent
and append the file name; `none` when every fallback fails (each `none` branch
corresponds to a `cannot resolve path` denial in the source). -/
def resolveCanonical (fs : PathOracle) (path : String) : Option String :=
  match fs.canon path with
  | some p => some p
  | none =>
    match fs.parent path with
    | none => none
    | some parentPath =>
      match fs.canon parentPath with
      | none => none
      | some canonParent =>
        match fs.fileName path with
        | some leaf => some (fs.join canonParent leaf)
        | none => none

/-- `check_path` from src/security/capability.rs lines 62-116.  The `for`
loop over `allowed` returning `Allowed` on the first string-prefix match is
rendered as `List.any`; the three textually identical `cannot resolve path`
denials are the `none` case of `resolveCanonical`. -/
def check_path (fs : PathOracle) (path : String) (allowed : List String)
    (operation : String) : CapabilityResult :=
  if allowed.isEmpty then
    .denied ("no " ++ operation ++ " paths are allowed")
  else
    match resolveCanonical fs path with
    | none => .denied ("cannot resolve path \x27" ++ path ++ "\x27")
    | some canonicalStr =>
      if allowed.any (fun ap => strStartsWith canonicalStr ((fs.canon ap).getD ap)) then
        .allowed
      else
        .denied (operation ++ " access denied for path \x27" ++ path ++ "\x27")

/-- `CapabilityChecker::check_file_read` (src/security/capability.rs 32-34). -/
def check_file_read (fs : PathOracle) (c : CapabilityChecker) (path : String) :
    CapabilityResult :=
  check_path fs path c.allowed_read_paths "read"

/-- `CapabilityChecker::check_file_write` (src/security/capability.rs 36-38). -/
def check_file_write (fs : PathOracle) (c : CapabilityChecker) (path : String) :
    CapabilityResult :=
  check_path fs path c.allowed_write_paths "write"

/-- `CapabilityChecker::check_command` (src/security/capability.rs 40-59).
`base` is `Path::new(command).file_name()` with fallback to the whole
command string. -/
def check_command (fs : PathOracle) (c : CapabilityChecker) (command : String) :
    CapabilityResult :=
  if c.allowed_commands.isEmpty then
    .denied "no commands are allowed"
  else
    let base := (fs.fileName command).getD command
    if c.allowed_commands.any (fun x => x == base || x == command) then
      .allowed
    else
      .denied ("command \x27" ++ command ++ "\x27 not in allowlist")

theorem check_path_allowed_iff (fs : PathOracle) (path : String)
    (allowed : List String) (operation : String) :
    check_path fs path allowed operation = .allowed ↔
      (allowed ≠ [] ∧ ∃ c, resolveCanonical fs path = some c ∧
        ∃ e ∈ allowed, strStartsWith c ((fs.canon e).getD e) = true) := by
  unfold check_path
  by_cases he : allowed.isEmpty
  · have : allowed = [] := List.isEmpty_iff.mp he
    simp [he, this]
  · have hne : allowed ≠ [] := by
      intro h
      exact he (by simp [h])
    rcases hr : resolveCanonical fs path with _ | c
    · simp [he, hr]
    · by_cases ha : allowed.any (fun ap => strStartsWith c ((fs.canon ap).getD ap)) = true
      · simp only [he, if_false, hr, ha, if_true]
        rw [List.any_eq_true] at ha
        rcases ha with ⟨e, hm, hp⟩
        exact ⟨fun _ => ⟨hne, c, rfl, e, hm, hp⟩, fun _ => rfl⟩
      · simp only [he, if_false, hr, ha]
        constructor
        · intro h
          exact absurd h (by simp)
        · rintro ⟨-, c2, hc2, e, hm, hp⟩
          injection hc2 with hcc
          subst hcc
          exact absurd (List.any_eq_true.mpr ⟨e, hm, hp⟩) ha

theorem check_path_denied_nonempty (fs : PathOracle) (path : String)
    (allowed : List String) (operation : String) :
    check_path fs path allowed operation = .allowed ∨
      ∃ r, check_path fs path allowed operation = .denied r ∧ r ≠ "" := by
  unfold check_path
  by_cases he : allowed.isEmpty
  · refine Or.inr ⟨"no " ++ operation ++ " paths are allowed", by simp [he], ?_⟩
    exact append_ne_empty_of_right_pos _ " paths are allowed" (by decide)
  · rcases hr : resolveCanonical fs path with _ | c
    · refine Or.inr ⟨"cannot resolve path \x27" ++ path ++ "\x27", by simp [he, hr], ?_⟩
      exact append_ne_empty_of_right_pos _ "\x27" (by decide)
    · by_cases ha : allowed.any (fun ap => strStartsWith c ((fs.canon ap).getD ap)) = true
      · exact Or.inl (by simp [he, hr, ha])
      · refine Or.inr ⟨operation ++ " access denied for path \x27" ++ path ++ "\x27",
          by simp [he, hr, ha], ?_⟩
        exact append_ne_empty_of_right_pos _ "\x27" (by decide)

/-- Claim C1: for every capability policy and path, `check_file_read` returns
`Allowed` iff `allowed_read_paths` is non-empty and the canonical form of the
path (direct canonicalization, or canonical parent joined with the leaf) has
the canonical form of some allowlist entry (the raw entry when its
canonicalization fails) as a string prefix; otherwise it returns `Denied`
with a non-empty reason.  Symmetrically for `check_file_write` over
`allowed_write_paths`. -/
theorem claim_C1_check_read_write_iff (fs : PathOracle) (c : CapabilityChecker)
    (p : String) :
    (check_file_read fs c p = .allowed ↔
      (c.allowed_read_paths ≠ [] ∧ ∃ canonForm, resolveCanonical fs p = some canonForm ∧
        ∃ e ∈ c.allowed_read_paths, strStartsWith canonForm ((fs.canon e).getD e) = true)) ∧
    (check_file_write fs c p = .allowed ↔
      (c.allowed_write_paths ≠ [] ∧ ∃ canonForm, resolveCanonical fs p = some canonForm ∧
        ∃ e ∈ c.allowed_write_paths, strStartsWith canonForm ((fs.canon e).getD e) = true)) ∧
    (check_file_read fs c p = .allowed ∨
      ∃ r, check_file_read fs c p = .denied r ∧ r ≠ "") ∧
    (check_file_write fs c p = .allowed ∨
      ∃ r, check_file_write fs c p = .denied r ∧ r ≠ "") :=
  ⟨check_path_allowed_iff fs p c.allowed_read_paths "read",
   check_path_allowed_iff fs p c.allowed_write_paths "write",
   check_path_denied_nonempty fs p c.allowed_read_paths "read",
   check_path_denied_nonempty fs p c.allowed_write_paths "write"⟩

/-- Claim C2: `check_command` returns `Allowed` iff the command allowlist is
non-empty and either the command string itself or its trailing basename is in
the allowlist; otherwise it returns `Denied` (with a non-empty reason). -/
theorem claim_C2_check_command_iff (fs : PathOracle) (c : CapabilityChecker)
    (cmd : String) :
    (check_command fs c cmd = .allowed ↔
      (c.allowed_commands ≠ [] ∧
        (cmd ∈ c.allowed_commands ∨ (fs.fileName cmd).getD cmd ∈ c.allowed_commands))) ∧
    (check_command fs c cmd = .allowed ∨
      ∃ r, check_command fs c cmd = .denied r ∧ r ≠ "") := by
  constructor
  · unfold check_command
    by_cases he : c.allowed_commands.isEmpty
    · have : c.allowed_commands = [] := List.isEmpty_iff.mp he
      simp [he, this]
    · have hne : c.allowed_commands ≠ [] := by
        intro h
        exact he (by simp [h])
      by_cases ha : c.allowed_commands.any
          (fun x => x == (fs.fileName cmd).getD cmd || x == cmd) = true
      · simp only [he, if_false, ha, if_true]
        rw [List.any_eq_true] at ha
        rcases ha with ⟨e, hm, hp⟩
        rcases Bool.or_eq_true_iff.mp hp with h1 | h2
        · exact ⟨fun _ => ⟨hne, Or.inr (by rwa [eq_of_beq h1] at hm)⟩, fun _ => rfl⟩
        · exact ⟨fun _ => ⟨hne, Or.inl (by rwa [eq_of_beq h2] at hm)⟩, fun _ => rfl⟩
      · simp only [he, if_false, ha]
        constructor
        · intro h
          exact absurd h (by simp)
        · rintro ⟨-, hmem⟩
          rcases hmem with hm | hm
          · exact absurd (List.any_eq_true.mpr ⟨cmd, hm, by simp⟩) ha
          · exact absurd (List.any_eq_true.mpr ⟨_, hm, by simp⟩) ha
  · unfold check_command
    by_cases he : c.allowed_commands.isEmpty
    · exact Or.inr ⟨"no commands are allowed", by simp [he], by decide⟩
    · by_cases ha : c.allowed_commands.any
          (fun x => x == (fs.fileName cmd).getD cmd || x == cmd) = true
      · exact Or.inl (by simp [he, ha])
      · refine Or.inr ⟨"command \x27" ++ cmd ++ "\x27 not in allowlist",
          by simp [he, ha], ?_⟩
        exact append_ne_empty_of_right_pos _ "\x27 not in allowlist" (by decide)

/-- Claim C10: allowlist matching is plain string-prefix matching with no
path-component boundary check: whenever the canonical form of the candidate
path literally begins with the canonical form of some `read_paths` entry (raw
entry when its canonicalization fails), `check_file_read` returns `Allowed`,
whether or not the match ends at a directory separator. -/
theorem claim_C10_prefix_no_boundary (fs : PathOracle) (c : CapabilityChecker)
    (p e canonForm : String)
    (he : e ∈ c.allowed_read_paths)
    (hc : resolveCanonical fs p = some canonForm)
    (hp : strStartsWith canonForm ((fs.canon e).getD e) = true) :
    check_file_read fs c p = .allowed :=
  (check_path_allowed_iff fs p c.allowed_read_paths "read").mpr
    ⟨List.ne_nil_of_mem he, canonForm, hc, e, he, hp⟩

/-- Path oracle for the concrete boundary-crossing scenario of claim C10:
`/tmp` and `/tmp2/secret` are both already canonical. -/
def fs10 : PathOracle where
  canon := fun s =>
    if s = "/tmp" then some "/tmp"
    else if s = "/tmp2/secret" then some "/tmp2/secret"
    else none
  parent := fun _ => none
  fileName := fun _ => none
  join := fun a b => a ++ "/" ++ b

/-- Policy with `read_paths = ["/tmp"]` for the claim C10 scenario. -/
def cap10 : CapabilityChecker :=
  { allowed_read_paths := ["/tmp"], allowed_write_paths := [], allowed_commands := [] }

/-- Witness for claim C10: with `read_paths = ["/tmp"]`, the path
`/tmp2/secret` (whose canonical form begins with the characters `/tmp` but not
at a component boundary) is allowed. -/
theorem claim_C10_witness :
    ("/tmp" ∈ cap10.allowed_read_paths) ∧
    resolveCanonical fs10 "/tmp2/secret" = some "/tmp2/secret" ∧
    strStartsWith "/tmp2/secret" ((fs10.canon "/tmp").getD "/tmp") = true ∧
    check_file_read fs10 cap10 "/tmp2/secret" = .allowed :=
  ⟨by decide, by decide, by decide,
   claim_C10_prefix_no_boundary fs10 cap10 "/tmp2/secret" "/tmp" "/tmp2/secret"
     (by decide) (by decide) (by decide)⟩

-- ═══════════════════════════════════════════════════════════════════════════
-- JSON values and serializer (src/net/json.rs)
-- ═══════════════════════════════════════════════════════════════════════════

/-- `JsonNumber` from src/net/json.rs lines 6-9.  The float payload is kept
(Lean `Float` is IEEE-754 binary64 like Rust `f64`); no verified claim builds
or inspects a float. -/
inductive JsonNumber where
  | int (n : Int)
  | float (f : Float)

/-- `JsonValue` from src/net/json.rs lines 12-19. -/
inductive JsonValue where
  | null
  | bool (b : Bool)
  | num (n : JsonNumber)
  | str (s : String)
  | arr (items : List JsonValue)
  | obj (pairs : List (String × JsonValue))

/-- `JsonValue::get` (src/net/json.rs 36-43): first pair with the key, objects
only. -/
def JsonValue.get : JsonValue → String → Option JsonValue
  | .obj pairs, key => (pairs.find? (fun p => p.1 == key)).map (fun p => p.2)
  | _, _ => none

/-- `JsonValue::as_str` (src/net/json.rs 52-57). -/
def JsonValue.asStr : JsonValue → Option String
  | .str s => some s
  | _ => none

/-- `JsonValue::as_array` (src/net/json.rs 82-87). -/
def JsonValue.asArray : JsonValue → Option (List JsonValue)
  | .arr a => some a
  | _ => none

/-- Lower-case hexadecimal digit, for the `\u{:04x}` escapes. -/
def hexDigit (n : Nat) : Char :=
  if n < 10 then Char.ofNat (48 + n) else Char.ofNat (87 + n)

/-- Four lower-case hexadecimal digits (`format!("{:04x}", n)` for `n < 2^16`). -/
def hex4 (n : Nat) : String :=
  String.mk [hexDigit (n / 4096 % 16), hexDigit (n / 256 % 16),
    hexDigit (n / 16 % 16), hexDigit (n % 16)]

/-- One character of `escape_string` (src/net/json.rs 157-171). -/
def escapeJsonChar (c : Char) : String :=
  if c = '"' then "\\\""
  else if c = '\\' then "\\\\"
  else if c = '\n' then "\\n"
  else if c = '\r' then "\\r"
  else if c = '\t' then "\\t"
  else if c.toNat < 32 then "\\u" ++ hex4 c.toNat
  else String.mk [c]

/-- `escape_string` (src/net/json.rs 157-171), folded over the characters. -/
def escapeJsonString (s : String) : String :=
  s.data.foldl (fun acc c => acc ++ escapeJsonChar c) ""

mutual

/-- `serialize` (src/net/json.rs 111-155).  The float rendering delegates to
the Lean printer where Rust uses `format!("{}", f)`; no claim evaluates it. -/
def serializeJson : JsonValue → String
  | .null => "null"
  | .bool true => "true"
  | .bool false => "false"
  | .num (.int n) => toString n
  | .num (.float f) => if f.isInf || f.isNaN then "null" else toString f
  | .str s => "\"" ++ escapeJsonString s ++ "\""
  | .arr items => "[" ++ serializeJsonItems items ++ "]"
  | .obj pairs => "\x7b" ++ serializeJsonPairs pairs ++ "\x7d"

/-- Array elements, comma separated (src/net/json.rs 131-139). -/
def serializeJsonItems : List JsonValue → String
  | [] => ""
  | [v] => serializeJson v
  | v :: vs => serializeJson v ++ "," ++ serializeJsonItems vs

/-- Object pairs, comma separated, keys escaped (src/net/json.rs 141-153). -/
def serializeJsonPairs : List (String × JsonValue) → String
  | [] => ""
  | [(k, v)] => "\"" ++ escapeJsonString k ++ "\":" ++ serializeJson v
  | (k, v) :: ps =>
    "\"" ++ escapeJsonString k ++ "\":" ++ serializeJson v ++ "," ++ serializeJsonPairs ps

end

/-- `JsonValue::to_json_string` (src/net/json.rs 104-108). -/
def JsonValue.toJsonString (v : JsonValue) : String := serializeJson v

-- ═══════════════════════════════════════════════════════════════════════════
-- Audit events, effect traces, world oracle
-- ═══════════════════════════════════════════════════════════════════════════

/-- `AuditEvent` from src/security/audit.rs lines 14-20.  The wall-clock
timestamp is attached at rendering time by `Auditor::log` and is external to
the event itself. -/
inductive AuditEvent where
  | toolCallAllowed (tool params : String)
  | toolCallDenied (tool params reason : String)
  | messageReceived (chatId userId : Int) (username : String)
  | unauthorizedUser (userId : Int) (username : String)
  | apiCall (endpoint : String) (status : Nat)
deriving DecidableEq, Repr

/-- External operations the tool executor can perform, recorded in the order
the source performs them: a file read attempt (`fs::read_to_string`), a file
write attempt (`fs::write`), a directory listing (`fs::read_dir`), and a
successful process spawn (`Command::spawn`). -/
inductive Effect where
  | fsRead (path : String)
  | fsWrote (path content : String)
  | fsListed (path : String)
  | procSpawned (command : String) (args : List String)
deriving DecidableEq, Repr

/-- Outcome of supervising a spawned child (the `try_wait` polling loop of
src/agent/tools.rs lines 320-375): it completed before the timeout with an
exit code (`None` when killed by a signal) and captured stdout/stderr, or the
timeout elapsed first, or `try_wait` itself failed. -/
inductive RunOutcome where
  | completed (exitCode : Option Int) (stdoutStr stderrStr : String)
  | timedOut
  | waitFailed (msg : String)

/-- Oracle fixing one behaviour of the operating system services the executor
consumes: `fs::read_to_string`, `fs::write`, `fs::read_dir` (entry names with
an is-directory flag), and `Command::spawn` followed by the supervision loop
(`Except.error` is a spawn failure, in which case no process was created). -/
structure World where
  readToString : String → Except String String
  writeFile : String → String → Except String Unit
  readDir : String → Except String (List (String × Bool))
  run : String → List String → Except String RunOutcome

-- ═══════════════════════════════════════════════════════════════════════════
-- Tool executor (src/agent/tools.rs)
-- ═══════════════════════════════════════════════════════════════════════════

/-- `ToolExecutor` from src/agent/tools.rs lines 14-25 (the timeout is stored
in seconds, as passed to `ToolExecutor::new`). -/
structure ToolExecutor where
  caps : CapabilityChecker
  command_timeout_secs : Nat

/-- `ContentBlock` from src/llm/provider.rs lines 11-16. -/
inductive ContentBlock where
  | text (text : String)
  | toolUse (id name : String) (input : JsonValue)
  | toolResult (tool_use_id content : String) (is_error : Bool)

/-- `exec_read_file` (src/agent/tools.rs 164-193).  Returns the Rust return
value together with the audit events emitted and the external operations
performed, in order. -/
def exec_read_file (fs : PathOracle) (w : World) (ex : ToolExecutor)
    (input : JsonValue) (paramsStr : String) :
    Except String String × List AuditEvent × List Effect :=
  match (input.get "path").bind JsonValue.asStr with
  | none => (.error "missing \x27path\x27 parameter", [], [])
  | some path =>
    match check_file_read fs ex.caps path with
    | .denied reason =>
      (.error ("access denied: " ++ reason),
       [.toolCallDenied "read_file" paramsStr reason], [])
    | .allowed =>
      let audits := [AuditEvent.toolCallAllowed "read_file" paramsStr]
      match w.readToString path with
      | .ok content => (.ok content, audits, [.fsRead path])
      | .error e =>
        (.error ("failed to read \x27" ++ path ++ "\x27: " ++ e), audits, [.fsRead path])

/-- `exec_write_file` (src/agent/tools.rs 195-230). -/
def exec_write_file (fs : PathOracle) (w : World) (ex : ToolExecutor)
    (input : JsonValue) (paramsStr : String) :
    Except String String × List AuditEvent × List Effect :=
  match (input.get "path").bind JsonValue.asStr with
  | none => (.error "missing \x27path\x27 parameter", [], [])
  | some path =>
    match (input.get "content").bind JsonValue.asStr with
    | none => (.error "missing \x27content\x27 parameter", [], [])
    | some content =>
      match check_file_write fs ex.caps path with
      | .denied reason =>
        (.error ("access denied: " ++ reason),
         [.toolCallDenied "write_file" paramsStr reason], [])
      | .allowed =>
        let audits := [AuditEvent.toolCallAllowed "write_file" paramsStr]
        match w.writeFile path content with
        | .ok _ =>
          (.ok ("wrote " ++ toString content.utf8ByteSize ++ " bytes to \x27" ++ path ++ "\x27"),
           audits, [.fsWrote path content])
        | .error e =>
          (.error ("failed to write \x27" ++ path ++ "\x27: " ++ e),
           audits, [.fsWrote path content])

/-- `exec_list_directory` (src/agent/tools.rs 232-273).  Per-entry I/O errors
are folded into the listing oracle; `Vec::sort` is modelled by `sortLe`. -/
def exec_list_directory (fs : PathOracle) (w : World) (ex : ToolExecutor)
    (input : JsonValue) (paramsStr : String) :
    Except String String × List AuditEvent × List Effect :=
  match (input.get "path").bind JsonValue.asStr with
  | none => (.error "missing \x27path\x27 parameter", [], [])
  | some path =>
    match check_file_read fs ex.caps path with
    | .denied reason =>
      (.error ("access denied: " ++ reason),
       [.toolCallDenied "list_directory" paramsStr reason], [])
    | .allowed =>
      let audits := [AuditEvent.toolCallAllowed "list_directory" paramsStr]
      match w.readDir path with
      | .error e =>
        (.error ("failed to list \x27" ++ path ++ "\x27: " ++ e), audits, [.fsListed path])
      | .ok entries =>
        let lines := entries.map (fun en => en.1 ++ (if en.2 then "/" else ""))
        let sorted := sortLe strLe lines
        (.ok (joinSep "\n" sorted), audits, [.fsListed path])

/-- The `args` extraction of `exec_run_command` (src/agent/tools.rs 303-311):
optional array parameter, keeping only its string elements. -/
def jsonArgs (input : JsonValue) : List String :=
  match (input.get "args").bind JsonValue.asArray with
  | some arr => arr.filterMap JsonValue.asStr
  | none => []

/-- The output text assembled on child completion (src/agent/tools.rs
337-346): stdout, then, when stderr is non-empty, the separator (only if some
stdout text was already pushed) and stderr. -/
def commandOutputText (stdoutStr stderrStr : String) : String :=
  let result := ""
  let result := if strIsEmpty stdoutStr then result else result ++ stdoutStr
  if strIsEmpty stderrStr then result
  else (if strIsEmpty result then result else result ++ "\n--- stderr ---\n") ++ stderrStr

/-- The result produced on child completion (src/agent/tools.rs 348-356):
`status.success()` is exit code zero; `status.code()` is `None` for a
signal-killed child, rendered as `-1` by `unwrap_or(-1)`. -/
def commandCompletion (exitCode : Option Int) (stdoutStr stderrStr : String) :
    Except String String :=
  let result := commandOutputText stdoutStr stderrStr
  if exitCode = some 0 then .ok result
  else
    .error ("command exited with status " ++ toString (exitCode.getD (-1)) ++ "\n" ++ result)

/-- `exec_run_command` (src/agent/tools.rs 275-376). -/
def exec_run_command (fs : PathOracle) (w : World) (ex : ToolExecutor)
    (input : JsonValue) (paramsStr : String) :
    Except String String × List AuditEvent × List Effect :=
  match (input.get "command").bind JsonValue.asStr with
  | none => (.error "missing \x27command\x27 parameter", [], [])
  | some command =>
    match check_command fs ex.caps command with
    | .denied reason =>
      (.error ("access denied: " ++ reason),
       [.toolCallDenied "run_command" paramsStr reason], [])
    | .allowed =>
      let audits := [AuditEvent.toolCallAllowed "run_command" paramsStr]
      let args := jsonArgs input
      match w.run command args with
      | .error e => (.error ("failed to run \x27" ++ command ++ "\x27: " ++ e), audits, [])
      | .ok (.completed exitCode out err) =>
        (commandCompletion exitCode out err, audits, [.procSpawned command args])
      | .ok .timedOut =>
        (.error ("command \x27" ++ command ++ "\x27 timed out after " ++
          toString ex.command_timeout_secs ++ "s"), audits, [.procSpawned command args])
      | .ok (.waitFailed e) =>
        (.error ("error waiting for \x27" ++ command ++ "\x27: " ++ e),
         audits, [.procSpawned command args])

/-- The final `match result` of `ToolExecutor::execute` (src/agent/tools.rs
150-161): wrap the dispatch outcome into a tool-result block bound to the
original tool-use id. -/
def wrapToolResult (tool_use_id : String)
    (r : Except String String × List AuditEvent × List Effect) :
    ContentBlock × List AuditEvent × List Effect :=
  match r with
  | (.ok output, a, e) => (.toolResult tool_use_id output false, a, e)
  | (.error err, a, e) => (.toolResult tool_use_id err true, a, e)

/-- `ToolExecutor::execute` (src/agent/tools.rs 133-162). -/
def execute (fs : PathOracle) (w : World) (ex : ToolExecutor)
    (tool_use_id name : String) (input : JsonValue) :
    ContentBlock × List AuditEvent × List Effect :=
  let paramsStr := input.toJsonString
  wrapToolResult tool_use_id
    (if name = "read_file" then exec_read_file fs w ex input paramsStr
     else if name = "write_file" then exec_write_file fs w ex input paramsStr
     else if name = "list_directory" then exec_list_directory fs w ex input paramsStr
     else if name = "run_command" then exec_run_command fs w ex input paramsStr
     else (.error ("unknown tool: " ++ name), [], []))

theorem check_path_denied_reason_ne (fs : PathOracle) (path : String)
    (allowed : List String) (operation : String) (r : String)
    (h : check_path fs path allowed operation = .denied r) : r ≠ "" := by
  rcases check_path_denied_nonempty fs path allowed operation with ha | ⟨r2, h2, hne⟩
  · rw [h] at ha
    cases ha
  · rw [h] at h2
    injection h2 with e
    subst e
    exact hne

theorem check_command_denied_reason_ne (fs : PathOracle) (c : CapabilityChecker)
    (cmd r : String) (h : check_command fs c cmd = .denied r) : r ≠ "" := by
  unfold check_command at h
  split at h
  · injection h with e
    subst e
    decide
  · dsimp only at h
    split at h
    · cases h
    · injection h with e
      subst e
      exact append_ne_empty_of_right_pos _ "\x27 not in allowlist" (by decide)

/-- Claim C3: for every built-in tool invocation whose capability check
denies, the executor emits exactly one `tool-call-denied` audit event carrying
the serialized input parameters and a non-empty reason, returns an error
tool-result whose text begins with `access denied: ` (shown here as the exact
text `access denied: ` ++ reason), and performs no file or process
operation. -/
theorem claim_C3_denied_tool_audit (fs : PathOracle) (w : World)
    (ex : ToolExecutor) (id : String) (input : JsonValue) :
    (∀ path reason, (input.get "path").bind JsonValue.asStr = some path →
      check_file_read fs ex.caps path = .denied reason →
      execute fs w ex id "read_file" input =
        (.toolResult id ("access denied: " ++ reason) true,
         [.toolCallDenied "read_file" input.toJsonString reason], []) ∧ reason ≠ "") ∧
    (∀ path content reason, (input.get "path").bind JsonValue.asStr = some path →
      (input.get "content").bind JsonValue.asStr = some content →
      check_file_write fs ex.caps path = .denied reason →
      execute fs w ex id "write_file" input =
        (.toolResult id ("access denied: " ++ reason) true,
         [.toolCallDenied "write_file" input.toJsonString reason], []) ∧ reason ≠ "") ∧
    (∀ path reason, (input.get "path").bind JsonValue.asStr = some path →
      check_file_read fs ex.caps path = .denied reason →
      execute fs w ex id "list_directory" input =
        (.toolResult id ("access denied: " ++ reason) true,
         [.toolCallDenied "list_directory" input.toJsonString reason], []) ∧ reason ≠ "") ∧
    (∀ cmd reason, (input.get "command").bind JsonValue.asStr = some cmd →
      check_command fs ex.caps cmd = .denied reason →
      execute fs w ex id "run_command" input =
        (.toolResult id ("access denied: " ++ reason) true,
         [.toolCallDenied "run_command" input.toJsonString reason], []) ∧ reason ≠ "") := by
  refine ⟨?_, ?_, ?_, ?_⟩
  · intro path reason h1 h2
    refine ⟨?_, check_path_denied_reason_ne _ _ _ _ _ h2⟩
    simp [execute, exec_read_file, h1, h2, wrapToolResult]
  · intro path content reason h1 hc h2
    refine ⟨?_, check_path_denied_reason_ne _ _ _ _ _ h2⟩
    simp [execute, exec_write_file, h1, hc, h2, wrapToolResult]
  · intro path reason h1 h2
    refine ⟨?_, check_path_denied_reason_ne _ _ _ _ _ h2⟩
    simp [execute, exec_list_directory, h1, h2, wrapToolResult]
  · intro cmd reason h1 h2
    refine ⟨?_, check_command_denied_reason_ne fs ex.caps cmd reason h2⟩
    simp [execute, exec_run_command, h1, h2, wrapToolResult]

/-- Path oracle with no canonicalizable paths and no parents: every name
resolution fails.  Used by concrete scenarios where resolution is never
reached or must fail. -/
def fsU : PathOracle where
  canon := fun _ => none
  parent := fun _ => none
  fileName := fun _ => none
  join := fun a b => a ++ "/" ++ b

/-- The all-empty capability policy: every category denies. -/
def capsU : CapabilityChecker :=
  { allowed_read_paths := [], allowed_write_paths := [], allowed_commands := [] }

/-- World oracle in which every operating-system service fails. -/
def wU : World where
  readToString := fun _ => .error "io error"
  writeFile := fun _ _ => .error "io error"
  readDir := fun _ => .error "io error"
  run := fun _ _ => .error "io error"

/-- Executor over the all-empty policy with a 30 second command timeout. -/
def exU : ToolExecutor := { caps := capsU, command_timeout_secs := 30 }

/-- Input `{"path": "/etc/passwd"}` for the concrete denial scenario. -/
def inputC3 : JsonValue := .obj [("path", .str "/etc/passwd")]

/-- Witness for claim C3: under the all-empty policy, `read_file` on
`/etc/passwd` is denied, one denied audit event with the serialized
parameters is emitted, the result is the error-tagged tool-result, and no
external operation happens. -/
theorem claim_C3_witness :
    (inputC3.get "path").bind JsonValue.asStr = some "/etc/passwd" ∧
    check_file_read fsU exU.caps "/etc/passwd" = .denied "no read paths are allowed" ∧
    inputC3.toJsonString = "\x7b\"path\":\"/etc/passwd\"\x7d" ∧
    (execute fsU wU exU "toolu_1" "read_file" inputC3 =
      (.toolResult "toolu_1" ("access denied: " ++ "no read paths are allowed") true,
       [.toolCallDenied "read_file" inputC3.toJsonString "no read paths are allowed"], []) ∧
     "no read paths are allowed" ≠ "") :=
  ⟨rfl, rfl, rfl,
   (claim_C3_denied_tool_audit fsU wU exU "toolu_1" inputC3).1
     "/etc/passwd" "no read paths are allowed" rfl rfl⟩

/-- Claim C4: a built-in tool invocation whose required string parameter is
missing or wrongly typed returns an error tool-result and emits no audit
event and performs no external operation (the outcome is a constant
independent of the capability policy and of the world oracle, so no policy
check and no filesystem or process access can have taken place). -/
theorem claim_C4_missing_param (fs : PathOracle) (w : World) (ex : ToolExecutor)
    (id : String) (input : JsonValue) :
    ((input.get "path").bind JsonValue.asStr = none →
      execute fs w ex id "read_file" input =
        (.toolResult id "missing \x27path\x27 parameter" true, [], []) ∧
      execute fs w ex id "list_directory" input =
        (.toolResult id "missing \x27path\x27 parameter" true, [], []) ∧
      execute fs w ex id "write_file" input =
        (.toolResult id "missing \x27path\x27 parameter" true, [], [])) ∧
    (∀ path, (input.get "path").bind JsonValue.asStr = some path →
      (input.get "content").bind JsonValue.asStr = none →
      execute fs w ex id "write_file" input =
        (.toolResult id "missing \x27content\x27 parameter" true, [], [])) ∧
    ((input.get "command").bind JsonValue.asStr = none →
      execute fs w ex id "run_command" input =
        (.toolResult id "missing \x27command\x27 parameter" true, [], [])) := by
  refine ⟨?_, ?_, ?_⟩
  · intro h
    refine ⟨?_, ?_, ?_⟩
    · simp [execute, exec_read_file, h, wrapToolResult]
    · simp [execute, exec_list_directory, h, wrapToolResult]
    · simp [execute, exec_write_file, h, wrapToolResult]
  · intro path h1 h2
    simp [execute, exec_write_file, h1, h2, wrapToolResult]
  · intro h
    simp [execute, exec_run_command, h, wrapToolResult]

/-- Witness for claim C4: a `null` input has no `"path"` field, so
`read_file` fails with the missing-parameter error, no audit event and no
external operation. -/
theorem claim_C4_witness :
    (JsonValue.null.get "path").bind JsonValue.asStr = none ∧
    execute fsU wU exU "toolu_2" "read_file" JsonValue.null =
      (.toolResult "toolu_2" "missing \x27path\x27 parameter" true, [], []) :=
  ⟨rfl, ((claim_C4_missing_param fsU wU exU "toolu_2" JsonValue.null).1 rfl).1⟩

theorem strIsEmpty_iff (s : String) : strIsEmpty s = true ↔ s = "" := by
  constructor
  · intro h
    apply String.ext
    simpa [strIsEmpty, List.isEmpty_iff] using h
  · rintro rfl
    rfl

/-- Counterexample to claim C7 as stated: a command that completes with exit
code zero, empty stdout, and stderr `oops` yields output text `oops`, not
stdout followed by the literal separator and stderr (which would be the text
starting with the separator). -/
theorem claim_C7_counterexample :
    commandCompletion (some 0) "" "oops" = .ok "oops" ∧
    ("oops" : String) ≠ "" ++ "\n--- stderr ---\n" ++ "oops" :=
  ⟨rfl, by decide⟩

/-- Claim C7 (amended): for a `run_command` invocation whose child completes
before the timeout, the result is `commandCompletion` with one allowed audit
event and one spawn; the output text is stdout, then, when BOTH stderr and
stdout are non-empty, the literal separator, then stderr (stderr alone when
stdout is empty); the result is a success exactly when the exit code is zero,
and on a non-zero exit it is an error prefixed with the exit status line. -/
theorem claim_C7_amended_run_command (fs : PathOracle) (w : World)
    (ex : ToolExecutor) (input : JsonValue) (paramsStr cmd : String)
    (exitCode : Option Int) (out err : String)
    (hcmd : (input.get "command").bind JsonValue.asStr = some cmd)
    (hallow : check_command fs ex.caps cmd = .allowed)
    (hrun : w.run cmd (jsonArgs input) = .ok (.completed exitCode out err)) :
    exec_run_command fs w ex input paramsStr =
      (commandCompletion exitCode out err,
       [.toolCallAllowed "run_command" paramsStr],
       [.procSpawned cmd (jsonArgs input)]) ∧
    commandOutputText out err =
      (if err = "" then out
       else if out = "" then err
       else out ++ "\n--- stderr ---\n" ++ err) ∧
    ((∃ s, commandCompletion exitCode out err = .ok s) ↔ exitCode = some 0) ∧
    (exitCode = some 0 →
      commandCompletion exitCode out err = .ok (commandOutputText out err)) ∧
    (∀ n, exitCode = some n → n ≠ 0 →
      commandCompletion exitCode out err =
        .error ("command exited with status " ++ toString n ++ "\n" ++
          commandOutputText out err)) := by
  refine ⟨?_, ?_, ?_, ?_, ?_⟩
  · simp [exec_run_command, hcmd, hallow, hrun]
  · have hnil : strIsEmpty "" = true := rfl
    have happ : ∀ s : String, "" ++ s = s := fun _ => rfl
    by_cases he : err = ""
    · subst he
      by_cases ho : out = ""
      · subst ho
        rfl
      · have hob : strIsEmpty out = false := by
          rcases hb : strIsEmpty out with _ | _
          · rfl
          · exact absurd ((strIsEmpty_iff out).mp hb) ho
        simp [commandOutputText, hob, hnil, happ]
    · have heb : strIsEmpty err = false := by
        rcases hb : strIsEmpty err with _ | _
        · rfl
        · exact absurd ((strIsEmpty_iff err).mp hb) he
      by_cases ho : out = ""
      · subst ho
        simp [commandOutputText, heb, he, hnil, happ]
      · have hob : strIsEmpty out = false := by
          rcases hb : strIsEmpty out with _ | _
          · rfl
          · exact absurd ((strIsEmpty_iff out).mp hb) ho
        simp [commandOutputText, heb, hob, he, ho, hnil, happ]
  · constructor
    · rintro ⟨s, hs⟩
      unfold commandCompletion at hs
      split at hs
      · assumption
      · cases hs
    · intro h
      exact ⟨commandOutputText out err, by simp [commandCompletion, h]⟩
  · intro h
    simp [commandCompletion, h]
  · intro n hn hne
    subst hn
    have : ¬ (some n = some (0 : Int)) := by
      intro hc
      injection hc with hc2
      exact hne hc2
    simp only [commandCompletion, this, if_false]
    simp

/-- World oracle whose only command behaviour is a completed child with exit
code 2, stdout `a`, stderr `b`. -/
def w7 : World where
  readToString := fun _ => .error "io error"
  writeFile := fun _ _ => .error "io error"
  readDir := fun _ => .error "io error"
  run := fun _ _ => .ok (.completed (some 2) "a" "b")

/-- Policy allowing only the command `sh`, with a 30 second timeout. -/
def ex7 : ToolExecutor :=
  { caps := { allowed_read_paths := [], allowed_write_paths := [],
              allowed_commands := ["sh"] },
    command_timeout_secs := 30 }

/-- Input `{"command": "sh"}`. -/
def input7 : JsonValue := .obj [("command", .str "sh")]

/-- Witness for the amended claim C7: for the completed child with exit code
2, stdout `a` and stderr `b`, the tool reports the separator-joined output in
an error prefixed by the exit status line. -/
theorem claim_C7_witness :
    (input7.get "command").bind JsonValue.asStr = some "sh" ∧
    check_command fsU ex7.caps "sh" = .allowed ∧
    w7.run "sh" (jsonArgs input7) = .ok (.completed (some 2) "a" "b") ∧
    exec_run_command fsU w7 ex7 input7 "ps" =
      (commandCompletion (some 2) "a" "b",
       [.toolCallAllowed "run_command" "ps"],
       [.procSpawned "sh" (jsonArgs input7)]) ∧
    commandOutputText "a" "b" = "a" ++ "\n--- stderr ---\n" ++ "b" ∧
    commandCompletion (some 2) "a" "b" =
      .error ("command exited with status " ++ toString (2 : Int) ++ "\n" ++
        commandOutputText "a" "b") := by
  have h := claim_C7_amended_run_command fsU w7 ex7 input7 "ps" "sh"
    (some 2) "a" "b" rfl rfl rfl
  exact ⟨rfl, rfl, rfl, h.1, h.2.1, h.2.2.2.2 2 rfl (by decide)⟩

-- ═══════════════════════════════════════════════════════════════════════════
-- Agent turn loop (src/app.rs) and provider types (src/llm/provider.rs)
-- ═══════════════════════════════════════════════════════════════════════════

/-- `Role` from src/llm/provider.rs lines 5-9. -/
inductive Role where
  | user
  | assistant
deriving DecidableEq, Repr

/-- `Message` from src/llm/provider.rs lines 18-22. -/
structure Message where
  role : Role
  content : List ContentBlock

/-- `StopReason` from src/llm/provider.rs lines 24-30. -/
inductive StopReason where
  | endTurn
  | toolUse
  | maxTokens
  | other (s : String)
deriving DecidableEq, Repr

/-- `LlmResponse` from src/llm/provider.rs lines 32-38. -/
structure LlmResponse where
  stop_reason : StopReason
  content : List ContentBlock
  usage_input : Int
  usage_output : Int

/-- `MAX_TOOL_ROUNDS` from src/app.rs line 18. -/
def MAX_TOOL_ROUNDS : Nat := 10

/-- The tool-execution block of one `ToolUse` round (src/app.rs lines
383-392): for each tool-use block of the response, in order, invoke
`ToolExecutor::execute` and collect the returned tool-result block. -/
def roundToolResults (fs : PathOracle) (w : World) (ex : ToolExecutor)
    (content : List ContentBlock) : List ContentBlock :=
  content.filterMap (fun b =>
    match b with
    | .toolUse id name input => some (execute fs w ex id name input).1
    | _ => none)

/-- The history evolution of `run_agent_turn` (src/app.rs lines 293-409).  The
LLM provider is modelled by the list of successive responses it returns (the
streaming callbacks and the rate-limit retry only affect which response is
obtained, not the history); an exhausted response list stands for a provider
error, which leaves the history as is.  The fuel argument is the remaining
rounds of the `for _round in 0..MAX_TOOL_ROUNDS` loop. -/
def runRounds (fs : PathOracle) (w : World) (ex : ToolExecutor) :
    Nat → List LlmResponse → List Message → List Message × Except String Unit
  | 0, _, hist => (hist, .error "max tool rounds exceeded")
  | Nat.succ n, resps, hist =>
    match resps with
    | [] => (hist, .error "LLM API error")
    | r :: rest =>
      let hist2 := hist ++ [{ role := .assistant, content := r.content }]
      match r.stop_reason with
      | .endTurn => (hist2, .ok ())
      | .maxTokens => (hist2, .ok ())
      | .other s => (hist2, .error ("unexpected stop reason: " ++ s))
      | .toolUse =>
        let trs := roundToolResults fs w ex r.content
        let hist3 :=
          if trs.isEmpty then hist2
          else hist2 ++ [{ role := .user, content := trs }]
        runRounds fs w ex n rest hist3

/-- `run_agent_turn` (src/app.rs lines 293-409), history component. -/
def run_agent_turn (fs : PathOracle) (w : World) (ex : ToolExecutor)
    (resps : List LlmResponse) (hist : List Message) :
    List Message × Except String Unit :=
  runRounds fs w ex MAX_TOOL_ROUNDS resps hist

/-- A history entry annotated with the stop reason of the response that
produced it (assistant turns) — the projection `Turn.toMessage` recovers the
history exactly as `run_agent_turn` builds it. -/
inductive Turn where
  | assistantTurn (stop : StopReason) (content : List ContentBlock)
  | userTurn (content : List ContentBlock)

/-- The annotated trace of the turns `runRounds` appends to the history. -/
def runRoundsT (fs : PathOracle) (w : World) (ex : ToolExecutor) :
    Nat → List LlmResponse → List Turn
  | 0, _ => []
  | Nat.succ _, [] => []
  | Nat.succ n, r :: rest =>
    match r.stop_reason with
    | .endTurn => [.assistantTurn .endTurn r.content]
    | .maxTokens => [.assistantTurn .maxTokens r.content]
    | .other s => [.assistantTurn (.other s) r.content]
    | .toolUse =>
      let trs := roundToolResults fs w ex r.content
      .assistantTurn .toolUse r.content ::
        ((if trs.isEmpty then [] else [.userTurn trs]) ++ runRoundsT fs w ex n rest)

/-- Erasing the stop-reason annotation of a turn. -/
def Turn.toMessage : Turn → Message
  | .assistantTurn _ c => { role := .assistant, content := c }
  | .userTurn c => { role := .user, content := c }

theorem runRounds_eq_annotated (fs : PathOracle) (w : World) (ex : ToolExecutor) :
    ∀ (n : Nat) (resps : List LlmResponse) (hist : List Message),
      (runRounds fs w ex n resps hist).1 =
        hist ++ (runRoundsT fs w ex n resps).map Turn.toMessage := by
  intro n
  induction n with
  | zero =>
    intro resps hist
    simp [runRounds, runRoundsT]
  | succ n ih =>
    intro resps hist
    cases resps with
    | nil => simp [runRounds, runRoundsT]
    | cons r rest =>
      cases hsr : r.stop_reason with
      | endTurn => simp [runRounds, runRoundsT, hsr, Turn.toMessage]
      | maxTokens => simp [runRounds, runRoundsT, hsr, Turn.toMessage]
      | other s => simp [runRounds, runRoundsT, hsr, Turn.toMessage]
      | toolUse =>
        by_cases htr : (roundToolResults fs w ex r.content).isEmpty
        · simp [runRounds, runRoundsT, hsr, htr, ih, Turn.toMessage]
        · simp [runRounds, runRoundsT, hsr, htr, ih, Turn.toMessage]

/-- The tool-use ids of the tool-use blocks of a content list, in order. -/
def toolUseIds (blocks : List ContentBlock) : List String :=
  blocks.filterMap (fun b =>
    match b with
    | .toolUse id _ _ => some id
    | _ => none)

/-- The referenced tool-use ids of the tool-result blocks of a content list,
in order. -/
def resultIds (blocks : List ContentBlock) : List String :=
  blocks.filterMap (fun b =>
    match b with
    | .toolResult id _ _ => some id
    | _ => none)

theorem wrapToolResult_fst (tid : String)
    (r : Except String String × List AuditEvent × List Effect) :
    ∃ c e, (wrapToolResult tid r).1 = .toolResult tid c e := by
  rcases r with ⟨r1, a, ef⟩
  cases r1 <;> exact ⟨_, _, rfl⟩

theorem execute_fst (fs : PathOracle) (w : World) (ex : ToolExecutor)
    (tid name : String) (input : JsonValue) :
    ∃ c e, (execute fs w ex tid name input).1 = .toolResult tid c e :=
  wrapToolResult_fst tid _

theorem resultIds_roundToolResults (fs : PathOracle) (w : World)
    (ex : ToolExecutor) (content : List ContentBlock) :
    resultIds (roundToolResults fs w ex content) = toolUseIds content := by
  induction content with
  | nil => rfl
  | cons b t ih =>
    cases b with
    | text s =>
      simpa [roundToolResults, resultIds, toolUseIds, List.filterMap_cons] using ih
    | toolUse id name input =>
      obtain ⟨c, e, hb⟩ := execute_fst fs w ex id name input
      simp only [roundToolResults, resultIds, toolUseIds, List.filterMap_cons] at ih ⊢
      rw [hb]
      simpa using ih
    | toolResult id c e =>
      simpa [roundToolResults, resultIds, toolUseIds, List.filterMap_cons] using ih

theorem roundToolResults_isEmpty_iff (fs : PathOracle) (w : World)
    (ex : ToolExecutor) (content : List ContentBlock) :
    (roundToolResults fs w ex content).isEmpty = true ↔ toolUseIds content = [] := by
  induction content with
  | nil => simp [roundToolResults, toolUseIds]
  | cons b t ih =>
    cases b with
    | text s => simpa [roundToolResults, toolUseIds, List.filterMap_cons] using ih
    | toolUse id name input => simp [roundToolResults, toolUseIds, List.filterMap_cons]
    | toolResult id c e =>
      simpa [roundToolResults, toolUseIds, List.filterMap_cons] using ih

/-- Formalization of claim C5 as stated, over the annotated trace: every
assistant turn whose stop reason was tool-use is immediately followed by one
synthetic user turn whose tool-result ids are exactly the tool-use ids of the
assistant turn, in order. -/
@[reducible] def ToolUseFollowedByResults (ts : List Turn) : Prop :=
  ∀ i content, ts[i]? = some (.assistantTurn .toolUse content) →
    ∃ rs, ts[i + 1]? = some (.userTurn rs) ∧ resultIds rs = toolUseIds content

/-- The amended shape: the synthetic user turn (with exactly the tool-use ids
of the assistant turn, in order, and followed by an assistant turn or the end
of the history, i.e. it is unique) is pushed exactly when the assistant
tool-use turn contains at least one tool-use block; an assistant tool-use
turn with no tool-use blocks is not followed by a user turn. -/
@[reducible] def ToolUseRoundShape (ts : List Turn) : Prop :=
  ∀ i content, ts[i]? = some (.assistantTurn .toolUse content) →
    (toolUseIds content ≠ [] →
      ∃ rs, ts[i + 1]? = some (.userTurn rs) ∧ resultIds rs = toolUseIds content ∧
        (ts[i + 1 + 1]? = none ∨
          ∃ st c, ts[i + 1 + 1]? = some (.assistantTurn st c))) ∧
    (toolUseIds content = [] → ∀ rs, ts[i + 1]? ≠ some (.userTurn rs))

theorem runRoundsT_head (fs : PathOracle) (w : World) (ex : ToolExecutor)
    (n : Nat) (resps : List LlmResponse) :
    (runRoundsT fs w ex n resps)[0]? = none ∨
      ∃ st c, (runRoundsT fs w ex n resps)[0]? = some (.assistantTurn st c) := by
  cases n with
  | zero => exact Or.inl rfl
  | succ n =>
    cases resps with
    | nil => exact Or.inl rfl
    | cons r rest =>
      cases hsr : r.stop_reason with
      | endTurn => exact Or.inr ⟨.endTurn, r.content, by simp [runRoundsT, hsr]⟩
      | maxTokens => exact Or.inr ⟨.maxTokens, r.content, by simp [runRoundsT, hsr]⟩
      | other s => exact Or.inr ⟨.other s, r.content, by simp [runRoundsT, hsr]⟩
      | toolUse => exact Or.inr ⟨.toolUse, r.content, by simp [runRoundsT, hsr]⟩

theorem toolUseRoundShape_of_stop_ne (st : StopReason) (c : List ContentBlock)
    (hst : st ≠ .toolUse) : ToolUseRoundShape [.assistantTurn st c] := by
  intro i content h
  cases i with
  | zero =>
    rw [List.getElem?_cons_zero] at h
    injection h with h2
    injection h2 with h3 h4
    exact absurd h3 hst
  | succ j =>
    rw [List.getElem?_cons_succ] at h
    simp at h

/-- Claim C5 (amended): in every history the turn loop produces, an assistant
turn with stop reason tool-use that contains at least one tool-use block is
immediately followed by exactly one synthetic user turn whose tool-result ids
are exactly its tool-use ids, in order (and that user turn is followed by an
assistant turn or by the end of the history); an assistant tool-use turn with
no tool-use blocks is not followed by a user turn. -/
theorem claim_C5_amended_tool_round_shape (fs : PathOracle) (w : World)
    (ex : ToolExecutor) :
    ∀ (n : Nat) (resps : List LlmResponse),
      ToolUseRoundShape (runRoundsT fs w ex n resps) := by
  intro n
  induction n with
  | zero =>
    intro resps i content h
    simp [runRoundsT] at h
  | succ n ih =>
    intro resps
    cases resps with
    | nil =>
      intro i content h
      simp [runRoundsT] at h
    | cons r rest =>
      cases hsr : r.stop_reason with
      | endTurn =>
        have hts : runRoundsT fs w ex (n + 1) (r :: rest) =
            [.assistantTurn .endTurn r.content] := by
          simp [runRoundsT, hsr]
        rw [hts]
        exact toolUseRoundShape_of_stop_ne _ _ (by intro hx; cases hx)
      | maxTokens =>
        have hts : runRoundsT fs w ex (n + 1) (r :: rest) =
            [.assistantTurn .maxTokens r.content] := by
          simp [runRoundsT, hsr]
        rw [hts]
        exact toolUseRoundShape_of_stop_ne _ _ (by intro hx; cases hx)
      | other s =>
        have hts : runRoundsT fs w ex (n + 1) (r :: rest) =
            [.assistantTurn (.other s) r.content] := by
          simp [runRoundsT, hsr]
        rw [hts]
        exact toolUseRoundShape_of_stop_ne _ _ (by intro hx; cases hx)
      | toolUse =>
        by_cases hemp : (roundToolResults fs w ex r.content).isEmpty = true
        · have hts : runRoundsT fs w ex (n + 1) (r :: rest) =
              .assistantTurn .toolUse r.content :: runRoundsT fs w ex n rest := by
            simp [runRoundsT, hsr, hemp]
          rw [hts]
          intro i content h
          cases i with
          | zero =>
            rw [List.getElem?_cons_zero] at h
            injection h with h2
            injection h2 with h3 h4
            subst h4
            constructor
            · intro hne
              exact absurd ((roundToolResults_isEmpty_iff fs w ex r.content).mp hemp) hne
            · intro hz rs hcon
              rw [List.getElem?_cons_succ] at hcon
              rcases runRoundsT_head fs w ex n rest with hh | ⟨st2, c2, hh⟩
              · rw [hh] at hcon
                cases hcon
              · rw [hh] at hcon
                injection hcon with h5
                exact Turn.noConfusion h5
          | succ j =>
            rw [List.getElem?_cons_succ] at h
            have hIH := ih rest j content h
            constructor
            · intro hne
              obtain ⟨rs, h1, h2, h3⟩ := hIH.1 hne
              refine ⟨rs, by rw [List.getElem?_cons_succ]; exact h1, h2, ?_⟩
              rcases h3 with h3 | ⟨st2, c2, h3⟩
              · exact Or.inl (by rw [List.getElem?_cons_succ]; exact h3)
              · exact Or.inr ⟨st2, c2, by rw [List.getElem?_cons_succ]; exact h3⟩
            · intro hz rs hcon
              rw [List.getElem?_cons_succ] at hcon
              exact hIH.2 hz rs hcon
        · have hts : runRoundsT fs w ex (n + 1) (r :: rest) =
              .assistantTurn .toolUse r.content ::
                .userTurn (roundToolResults fs w ex r.content) ::
                  runRoundsT fs w ex n rest := by
            simp [runRoundsT, hsr, hemp]
          rw [hts]
          intro i content h
          cases i with
          | zero =>
            rw [List.getElem?_cons_zero] at h
            injection h with h2
            injection h2 with h3 h4
            subst h4
            constructor
            · intro hne
              refine ⟨roundToolResults fs w ex r.content,
                by rw [List.getElem?_cons_succ, List.getElem?_cons_zero],
                resultIds_roundToolResults fs w ex r.content, ?_⟩
              rcases runRoundsT_head fs w ex n rest with hh | ⟨st2, c2, hh⟩
              · exact Or.inl
                  (by rw [List.getElem?_cons_succ, List.getElem?_cons_succ]; exact hh)
              · exact Or.inr ⟨st2, c2,
                  by rw [List.getElem?_cons_succ, List.getElem?_cons_succ]; exact hh⟩
            · intro hz
              exact absurd ((roundToolResults_isEmpty_iff fs w ex r.content).mpr hz) hemp
          | succ j =>
            rw [List.getElem?_cons_succ] at h
            cases j with
            | zero =>
              rw [List.getElem?_cons_zero] at h
              injection h with h2
              exact Turn.noConfusion h2
            | succ k =>
              rw [List.getElem?_cons_succ] at h
              have hIH := ih rest k content h
              constructor
              · intro hne
                obtain ⟨rs, h1, h2, h3⟩ := hIH.1 hne
                refine ⟨rs,
                  by rw [List.getElem?_cons_succ, List.getElem?_cons_succ]; exact h1,
                  h2, ?_⟩
                rcases h3 with h3 | ⟨st2, c2, h3⟩
                · exact Or.inl
                    (by rw [List.getElem?_cons_succ, List.getElem?_cons_succ]; exact h3)
                · exact Or.inr ⟨st2, c2,
                    by rw [List.getElem?_cons_succ, List.getElem?_cons_succ]; exact h3⟩
              · intro hz rs hcon
                rw [List.getElem?_cons_succ, List.getElem?_cons_succ] at hcon
                exact hIH.2 hz rs hcon

/-- A response with stop reason tool-use and no content blocks. -/
def respEmptyToolUse : LlmResponse :=
  { stop_reason := .toolUse, content := [], usage_input := 0, usage_output := 0 }

/-- Counterexample to claim C5 as stated: when the provider returns stop
reason tool-use with no tool-use blocks, the loop pushes the assistant turn
but no synthetic user turn at all, so the assistant tool-use turn is not
followed by a user turn covering the (empty) multiset of its tool-use ids. -/
theorem claim_C5_counterexample :
    ¬ ToolUseFollowedByResults
        (runRoundsT fsU wU exU MAX_TOOL_ROUNDS [respEmptyToolUse]) := by
  intro h
  have he : runRoundsT fsU wU exU MAX_TOOL_ROUNDS [respEmptyToolUse] =
      [.assistantTurn .toolUse []] := rfl
  obtain ⟨rs, h1, -⟩ := h 0 [] (by rw [he, List.getElem?_cons_zero])
  rw [he] at h1
  rw [List.getElem?_cons_succ] at h1
  simp at h1

/-- One tool-use block invoking an unknown tool (whose execution is
policy- and world-independent). -/
def tuBlock : ContentBlock := .toolUse "toolu_9" "nonexistent_tool" .null

/-- A response with stop reason tool-use and one tool-use block. -/
def respOneToolUse : LlmResponse :=
  { stop_reason := .toolUse, content := [tuBlock], usage_input := 0, usage_output := 0 }

/-- Witness for the amended claim C5: a tool-use round with one tool-use
block is followed by exactly one synthetic user turn whose tool-result ids
are the tool-use ids, in order. -/
theorem claim_C5_witness :
    (runRoundsT fsU wU exU MAX_TOOL_ROUNDS [respOneToolUse])[0]? =
      some (.assistantTurn .toolUse [tuBlock]) ∧
    toolUseIds [tuBlock] ≠ [] ∧
    ∃ rs, (runRoundsT fsU wU exU MAX_TOOL_ROUNDS [respOneToolUse])[0 + 1]? =
        some (.userTurn rs) ∧ resultIds rs = toolUseIds [tuBlock] := by
  refine ⟨rfl, by decide, ?_⟩
  obtain ⟨rs, h1, h2, -⟩ :=
    (claim_C5_amended_tool_round_shape fsU wU exU MAX_TOOL_ROUNDS
      [respOneToolUse] 0 [tuBlock] rfl).1 (by decide)
  exact ⟨rs, h1, h2⟩

-- ═══════════════════════════════════════════════════════════════════════════
-- Skill IPC (src/skills/ipc.rs, src/skills/sandbox.rs)
-- ═══════════════════════════════════════════════════════════════════════════

/-- The write end of the stdin pipe of a child process.  The pipe stays open
towards the child for as long as some owner holds the handle; the child
observes end-of-file only once the owned handle is dropped. -/
inductive PipeHandle where
  | live

/-- `SandboxedProcess` (src/skills/sandbox.rs 5-7): the `Child` with its owned
`stdin`/`stdout` handles (`Stdio::piped`, so both are `Some` after `spawn`). -/
structure SandboxedProcess where
  childStdin : Option PipeHandle
  childStdout : Option PipeHandle

/-- `SandboxedProcess::spawn` (src/skills/sandbox.rs 18-32): stdin and stdout
are piped, so both owned handles are present. -/
def spawnSandboxed : SandboxedProcess :=
  { childStdin := some .live, childStdout := some .live }

/-- `SandboxedProcess::stdin` (src/skills/sandbox.rs 34-37) returns
`self.child.stdin.as_mut()`: an optional mutable borrow of the handle that
stays owned by the child.  Borrowing moves nothing, so the process state is
returned unchanged; the borrow itself (a reference, owning nothing) is
modelled as a unit token. -/
def SandboxedProcess.stdinAsMut (p : SandboxedProcess) :
    Option Unit × SandboxedProcess :=
  (p.childStdin.map (fun _ => ()), p)

/-- The request line of `invoke_skill` (src/skills/ipc.rs 27-29):
`format!("{}\n", json_obj().field("params", params).build().to_json_string())`. -/
def skillRequestLine (params : JsonValue) : String :=
  (JsonValue.obj [("params", params)]).toJsonString ++ "\n"

/-- The stdin phase of `invoke_skill` (src/skills/ipc.rs lines 31-45), up to
the start of the wait loop.  It returns the list of strings written to the
pipe (`none` when `stdin()` returned `None` and the phase failed) and the
process state at the start of the wait.  The closing statement
`drop(process.stdin().take())` calls `stdin()` a second time — obtaining a
fresh `Option<&mut ChildStdin>` borrow — then `Option::take` empties only that
temporary option, and `drop` discards the extracted borrow.  A mutable borrow
does not own the handle, so nothing is closed: the owned handle still sits in
`child.stdin`, exactly as the borrow rules dictate. -/
def invokeSkillStdinPhase (p : SandboxedProcess) (params : JsonValue) :
    Option (List String) × SandboxedProcess :=
  match p.stdinAsMut with
  | (none, p2) => (none, p2)
  | (some _, p2) =>
    let written := [skillRequestLine params]
    let (borrow2, p3) := p2.stdinAsMut
    let _taken := borrow2
    (some written, p3)

/-- Claim C6, settled against the code: the phase writes exactly the one
request line `(JsonValue.obj [("params", params)]).toJsonString ++ "\n"` to
the stdin pipe, but the stdin handle owned by the child is NOT closed — the
process state at the start of the wait loop still holds it, because
`drop(process.stdin().take())` empties a temporary `Option` holding a
reborrow instead of moving the owned handle out of the child.  The claim
(and the comment in the source, and spec scenario S7) say stdin is closed
before waiting, so the code diverges from its documented intent. -/
theorem claim_C6_stdin_not_closed (p : SandboxedProcess) (params : JsonValue) :
    ((invokeSkillStdinPhase p params).2).childStdin = p.childStdin ∧
    (invokeSkillStdinPhase p params).1 =
      p.childStdin.map (fun _ => [skillRequestLine params]) := by
  cases h : p.childStdin <;>
    simp [invokeSkillStdinPhase, SandboxedProcess.stdinAsMut, h]

/-- `JsonValue::as_str` succeeds exactly on string values. -/
theorem asStr_eq_some_iff (j : JsonValue) (s : String) :
    j.asStr = some s ↔ j = .str s := by
  cases j <;> simp [JsonValue.asStr]

/-- The response interpretation of `invoke_skill` (src/skills/ipc.rs lines
92-108), applied to the trimmed first stdout line and its parsed JSON value:
a string `error` field gives a failure; otherwise a string `result` field is
returned as is; otherwise a present `result` is serialized; otherwise the
whole line is returned verbatim. -/
def skillResponseValue (responseLine : String) (v : JsonValue) :
    Except String String :=
  match (v.get "error").bind JsonValue.asStr with
  | some errStr => .error ("skill error: " ++ errStr)
  | none =>
    match v.get "result" with
    | some result =>
      match result.asStr with
      | some s => .ok s
      | none => .ok result.toJsonString
    | none => .ok responseLine

/-- Claim C8: precedence of the skill response fields — a string `error`
field wins and fails with the `skill error: ` text; else a string `result`
is returned; else a present non-string `result` is returned serialized; else
the whole response line is returned verbatim. -/
theorem claim_C8_skill_response_precedence (line : String) (v : JsonValue) :
    (∀ s, v.get "error" = some (.str s) →
      skillResponseValue line v = .error ("skill error: " ++ s)) ∧
    ((∀ t, v.get "error" ≠ some (.str t)) →
      (∀ s, v.get "result" = some (.str s) → skillResponseValue line v = .ok s) ∧
      (∀ r, v.get "result" = some r → (∀ s, r ≠ .str s) →
        skillResponseValue line v = .ok r.toJsonString) ∧
      (v.get "result" = none → skillResponseValue line v = .ok line)) := by
  constructor
  · intro s h
    simp [skillResponseValue, h, JsonValue.asStr]
  · intro hne
    have hb : (v.get "error").bind JsonValue.asStr = none := by
      rcases he : v.get "error" with _ | j
      · rfl
      · cases j with
        | str t => exact absurd he (hne t)
        | null => rfl
        | bool b => rfl
        | num n => rfl
        | arr a => rfl
        | obj o => rfl
    refine ⟨?_, ?_, ?_⟩
    · intro s h
      simp only [skillResponseValue, hb, h]
      rfl
    · intro r h hrs
      have hnone : r.asStr = none := by
        cases r with
        | str s => exact absurd rfl (hrs s)
        | null => rfl
        | bool b => rfl
        | num n => rfl
        | arr a => rfl
        | obj o => rfl
      simp only [skillResponseValue, hb, h, hnone]
    · intro h
      simp only [skillResponseValue, hb, h]

/-- A response value `{"error": "boom"}`. -/
def vSkillErr : JsonValue := .obj [("error", .str "boom")]

/-- Witness for claim C8: a string `error` field takes the failure branch
with the `skill error: ` text. -/
theorem claim_C8_witness :
    vSkillErr.get "error" = some (.str "boom") ∧
    skillResponseValue "raw line" vSkillErr = .error ("skill error: " ++ "boom") :=
  ⟨rfl, (claim_C8_skill_response_precedence "raw line" vSkillErr).1 "boom" rfl⟩

-- ═══════════════════════════════════════════════════════════════════════════
-- Minimal TOML parser (src/config.rs), skill manifest (src/skills/manifest.rs)
-- and loader (src/skills/loader.rs)
-- ═══════════════════════════════════════════════════════════════════════════

/-- Rust `str::parse::<i64>`: optional sign, one or more ASCII digits, value
within the `i64` range. -/
def parseI64 (s : String) : Option Int :=
  let signed :=
    match s.data with
    | '-' :: rest => (true, rest)
    | '+' :: rest => (false, rest)
    | l => (false, l)
  let digits := signed.2
  if digits.isEmpty then none
  else if ¬ digits.all Char.isDigit then none
  else
    let n : Nat := digits.foldl (fun acc c => acc * 10 + (c.toNat - 48)) 0
    let v : Int := if signed.1 then -(n : Int) else (n : Int)
    if v < -(2 ^ 63) then none
    else if (2 ^ 63 : Int) - 1 < v then none
    else some v

/-- `TomlValue` from src/config.rs lines 170-175. -/
inductive TomlValue where
  | str (s : String)
  | int (n : Int)
  | strList (v : List String)
  | intList (v : List Int)
deriving DecidableEq, Repr

/-- `TomlDoc` from src/config.rs lines 166-168.  The two `HashMap`s are
modelled as association lists with replace-on-insert, which is observationally
equal for the lookups the code performs. -/
structure TomlDoc where
  sections : List (String × List (String × TomlValue))
deriving DecidableEq, Repr

/-- `HashMap::get`. -/
def alistGet {β : Type} (l : List (String × β)) (k : String) : Option β :=
  (l.find? (fun p => p.1 == k)).map (fun p => p.2)

/-- `HashMap::insert` (replacing the value of an existing key). -/
def alistInsert {β : Type} (k : String) (v : β) :
    List (String × β) → List (String × β)
  | [] => [(k, v)]
  | (k2, v2) :: rest =>
    if k2 == k then (k2, v) :: rest else (k2, v2) :: alistInsert k v rest

/-- `HashMap::entry(k).or_default()` for its effect on the map. -/
def alistEnsure {β : Type} (k : String) (d : β) (l : List (String × β)) :
    List (String × β) :=
  if (alistGet l k).isSome then l else l ++ [(k, d)]

/-- Rust `str::lines`: fragments between newlines, without a final empty
fragment, each with a trailing carriage return stripped. -/
def rustLines (s : String) : List String :=
  let parts := splitChar '\n' s
  let parts2 :=
    match parts.getLast? with
    | some l => if strIsEmpty l then parts.dropLast else parts
    | none => parts
  parts2.map (fun l => if strEndsWith l "\r" then strDropRight l 1 else l)

/-- `parse_toml_value` (src/config.rs 254-306): a double-quoted string (text
up to the next quote), an array (string list when the first trimmed element
starts with a quote, keeping only well-quoted elements; otherwise the list of
parseable integers), an integer, or the literals `true`/`false` stored as
strings. -/
def parse_toml_value (s0 : String) : Except String TomlValue :=
  let s := trimStr s0
  if strStartsWith s "\"" then
    let rest := strDrop s 1
    if strContainsChar rest '"' then
      .ok (.str ((splitChar '"' rest).headD ""))
    else .error "unterminated string"
  else if strStartsWith s "[" then
    if ¬ strEndsWith s "]" then .error "unterminated array"
    else
      let inner := trimStr (strDropRight (strDrop s 1) 1)
      if strIsEmpty inner then .ok (.strList [])
      else
        let first := trimStr ((splitChar ',' inner).headD "")
        if strStartsWith first "\"" then
          .ok (.strList ((splitChar ',' inner).filterMap (fun item0 =>
            let item := trimStr item0
            if strStartsWith item "\"" && strEndsWith item "\"" &&
                decide (2 ≤ item.data.length) then
              some (strDropRight (strDrop item 1) 1)
            else none)))
        else
          .ok (.intList ((splitChar ',' inner).filterMap
            (fun item => parseI64 (trimStr item))))
  else
    match parseI64 s with
    | some n => .ok (.int n)
    | none =>
      if s = "true" || s = "false" then .ok (.str s)
      else .error ("cannot parse value: " ++ s)

/-- The line loop of `parse_toml` (src/config.rs 216-252): strip comments and
whitespace, track the current section, parse `key = value` lines at the first
equals sign. -/
def parseTomlLines : List (Nat × String) → String →
    List (String × List (String × TomlValue)) → Except String TomlDoc
  | [], _, sections => .ok { sections := sections }
  | (lineNum, rawLine) :: rest, currentSection, sections =>
    let line := trimStr ((splitChar '#' rawLine).headD "")
    if strIsEmpty line then parseTomlLines rest currentSection sections
    else if strStartsWith line "[" && strEndsWith line "]" then
      let newSection := trimStr (strDropRight (strDrop line 1) 1)
      parseTomlLines rest newSection (alistEnsure newSection [] sections)
    else
      match splitChar '=' line with
      | [] => .error ("line " ++ toString (lineNum + 1) ++ ": expected \x27=\x27")
      | [_] => .error ("line " ++ toString (lineNum + 1) ++ ": expected \x27=\x27")
      | keyPart :: valParts =>
        let key := trimStr keyPart
        let valStr := trimStr (joinSep "=" valParts)
        match parse_toml_value valStr with
        | .error e => .error ("line " ++ toString (lineNum + 1) ++ ": " ++ e)
        | .ok value =>
          let secMap := (alistGet sections currentSection).getD []
          parseTomlLines rest currentSection
            (alistInsert currentSection (alistInsert key value secMap) sections)

/-- `parse_toml` (src/config.rs 216-252). -/
def parse_toml (input : String) : Except String TomlDoc :=
  parseTomlLines (rustLines input).enum "" []

/-- `TomlDoc::get_str` (src/config.rs 178-184). -/
def TomlDoc.get_str (doc : TomlDoc) (sect key : String) : Option String :=
  match alistGet doc.sections sect with
  | none => none
  | some m =>
    match alistGet m key with
    | some (.str s) => some s
    | some (.int n) => some (toString n)
    | _ => none

/-- `TomlDoc::get_str_list` (src/config.rs 186-191). -/
def TomlDoc.get_str_list (doc : TomlDoc) (sect key : String) :
    Option (List String) :=
  match alistGet doc.sections sect with
  | none => none
  | some m =>
    match alistGet m key with
    | some (.strList v) => some v
    | _ => none

/-- `SkillParam` from src/skills/manifest.rs lines 21-26. -/
structure SkillParam where
  name : String
  param_type : String
  description : String
  required : Bool
deriving DecidableEq, Repr

/-- `SkillManifest` from src/skills/manifest.rs lines 5-19. -/
structure SkillManifest where
  name : String
  version : String
  description : String
  binary : String
  cap_network : Bool
  cap_file_read : List String
  cap_file_write : List String
  cap_commands : List String
  tool_name : String
  tool_description : String
  parameters : List SkillParam
deriving DecidableEq, Repr

/-- `parse_manifest` (src/skills/manifest.rs 30-119). -/
def parse_manifest (content : String) : Except String SkillManifest :=
  match parse_toml content with
  | .error e => .error e
  | .ok doc =>
    match doc.get_str "skill" "name" with
    | none => .error "skill.name is required"
    | some name =>
      let version := (doc.get_str "skill" "version").getD "0.1.0"
      let description := (doc.get_str "skill" "description").getD name
      match doc.get_str "skill" "binary" with
      | none => .error "skill.binary is required"
      | some binary =>
        let cap_network :=
          ((doc.get_str "capabilities" "network").map (fun v => v == "true")).getD false
        let cap_file_read := (doc.get_str_list "capabilities" "file_read").getD []
        let cap_file_write := (doc.get_str_list "capabilities" "file_write").getD []
        let cap_commands := (doc.get_str_list "capabilities" "commands").getD []
        match doc.get_str "tool" "name" with
        | none => .error "tool.name is required"
        | some tool_name =>
          let tool_description := (doc.get_str "tool" "description").getD description
          let param_names := (doc.get_str_list "tool" "param_names").getD []
          let param_types := (doc.get_str_list "tool" "param_types").getD []
          let param_descriptions := (doc.get_str_list "tool" "param_descriptions").getD []
          let param_required := (doc.get_str_list "tool" "param_required").getD []
          let parameters := param_names.enum.map (fun p =>
            ({ name := p.2,
               param_type := (param_types[p.1]?).getD "string",
               description := (param_descriptions[p.1]?).getD p.2,
               required := param_required.contains p.2 } : SkillParam))
          if ¬ (tool_name.data.all (fun c => c.isAlphanum || c == '_')) then
            .error ("tool.name \x27" ++ tool_name ++
              "\x27 must be alphanumeric with underscores")
          else
            .ok { name := name, version := version, description := description,
                  binary := binary, cap_network := cap_network,
                  cap_file_read := cap_file_read, cap_file_write := cap_file_write,
                  cap_commands := cap_commands, tool_name := tool_name,
                  tool_description := tool_description, parameters := parameters }

/-- `SkillDef` from src/skills/loader.rs lines 8-12. -/
structure SkillDef where
  manifest : SkillManifest
  binary_path : String
  skill_dir : String
deriving DecidableEq, Repr

/-- One entry of the skills root directory, as `load_skills` observes it: its
path, whether it is a directory, the content of its `skill.toml` when present
and readable, and the names of the files it contains (to decide whether the
declared binary exists). -/
structure SkillDirModel where
  path : String
  isDir : Bool
  manifestFile : Option String
  files : List String
deriving DecidableEq, Repr

/-- `load_skills` (src/skills/loader.rs 19-103): each `continue` of the source
loop is a `none` of the `filterMap`; accepted skills are sorted by skill
name. -/
def load_skills (dirs : List SkillDirModel) : List SkillDef :=
  let collected := dirs.filterMap (fun d =>
    if ¬ d.isDir then none
    else
      match d.manifestFile with
      | none => none
      | some content =>
        match parse_manifest content with
        | .error _ => none
        | .ok m =>
          if ¬ d.files.contains m.binary then none
          else some { manifest := m, binary_path := d.path ++ "/" ++ m.binary,
                      skill_dir := d.path })
  sortLe (fun a b => strLe a.manifest.name b.manifest.name) collected

/-- Claim C9 (amended): `parse_manifest` succeeds only if every character of
the tool name is ASCII alphanumeric or underscore (the check is
`[A-Za-z0-9_]*`, not `[A-Za-z0-9_]+`), and every skill the loader returns
satisfies the same character-set property; a manifest whose tool name
contains any other character is rejected and hence skipped by the loader. -/
theorem claim_C9_amended_tool_name_charset :
    (∀ content m, parse_manifest content = .ok m →
      m.tool_name.data.all (fun c => c.isAlphanum || c == '_') = true) ∧
    (∀ dirs, ∀ sd ∈ load_skills dirs,
      sd.manifest.tool_name.data.all (fun c => c.isAlphanum || c == '_') = true) := by
  have hparse : ∀ content m, parse_manifest content = .ok m →
      m.tool_name.data.all (fun c => c.isAlphanum || c == '_') = true := by
    intro content m h
    unfold parse_manifest at h
    split at h
    · cases h
    · split at h
      · cases h
      · split at h
        · cases h
        · split at h
          · cases h
          · split at h
            · cases h
            · rename_i hcond
              injection h with hm
              rw [← hm]
              exact not_not.mp hcond
  refine ⟨hparse, ?_⟩
  intro dirs sd hmem
  have hmem2 : sd ∈ dirs.filterMap (fun d =>
      if ¬ d.isDir then none
      else
        match d.manifestFile with
        | none => none
        | some content =>
          match parse_manifest content with
          | .error _ => none
          | .ok m =>
            if ¬ d.files.contains m.binary then none
            else some { manifest := m, binary_path := d.path ++ "/" ++ m.binary,
                        skill_dir := d.path }) :=
    (mem_sortLe _ _ _).mp hmem
  rw [List.mem_filterMap] at hmem2
  obtain ⟨d, hd, hf⟩ := hmem2
  split at hf
  · cases hf
  · split at hf
    · cases hf
    · rename_i content hmf
      split at hf
      · cases hf
      · rename_i m hpm
        split at hf
        · cases hf
        · injection hf with hsd
          rw [← hsd]
          exact hparse content m hpm

/-- A manifest whose `[tool]` name is the empty string. -/
def c9Content : String :=
  "[skill]\nname = \"t\"\nbinary = \"t\"\n\n[tool]\nname = \"\"\n"

/-- The manifest value `parse_manifest` produces for `c9Content`. -/
def c9Manifest : SkillManifest :=
  { name := "t", version := "0.1.0", description := "t", binary := "t",
    cap_network := false, cap_file_read := [], cap_file_write := [],
    cap_commands := [], tool_name := "", tool_description := "t",
    parameters := [] }

/-- Counterexample to claim C9 as stated: a manifest whose tool name is the
empty string (which does not match `[A-Za-z0-9_]+`) is accepted by
`parse_manifest`, and the loader loads the skill instead of skipping it. -/
theorem claim_C9_counterexample :
    parse_manifest c9Content = .ok c9Manifest ∧
    c9Manifest.tool_name = "" ∧
    load_skills [{ path := "skills/t", isDir := true,
                   manifestFile := some c9Content, files := ["t"] }] =
      [{ manifest := c9Manifest, binary_path := "skills/t/t",
         skill_dir := "skills/t" }] := by
  refine ⟨rfl, rfl, rfl⟩

/-- A manifest with the well-formed tool name `run_t`. -/
def c9GoodContent : String :=
  "[skill]\nname = \"t\"\nbinary = \"t\"\n\n[tool]\nname = \"run_t\"\n"

/-- The manifest value `parse_manifest` produces for `c9GoodContent`. -/
def c9GoodManifest : SkillManifest :=
  { name := "t", version := "0.1.0", description := "t", binary := "t",
    cap_network := false, cap_file_read := [], cap_file_write := [],
    cap_commands := [], tool_name := "run_t", tool_description := "t",
    parameters := [] }

/-- Witness for the amended claim C9: an accepted manifest has a tool name
made only of ASCII alphanumerics and underscores. -/
theorem claim_C9_witness :
    parse_manifest c9GoodContent = .ok c9GoodManifest ∧
    c9GoodManifest.tool_name.data.all (fun c => c.isAlphanum || c == '_') = true := by
  have h1 : parse_manifest c9GoodContent = .ok c9GoodManifest := rfl
  exact ⟨h1, claim_C9_amended_tool_name_charset.1 c9GoodContent c9GoodManifest h1⟩
